import Mathlib

/- A shallow embedding of the PetMent availability and booking engine:
   `rruleHelpers.ts` (recurrence expansion and slot slicing),
   `GetAvailableSlotsUseCase` (availability aggregation and conflict
   filtering), `BookAppointmentUseCase` (booking and reschedule),
   `CancelAppointmentUseCase` (cancellation) and the repository layer
   (`AppointmentRepositoryImpl` over `LocalStorageDataSource`).

   Modelling conventions:
   * Instants are natural numbers of milliseconds since the epoch
     1970-01-01T00:00:00 (a Thursday).  A canonical ISO-8601 string and the
     instant it denotes are identified, so the JavaScript comparison
     `slot.startISO === startISO` between canonical encodings is instant
     equality and `new Date(iso)` is the identity.
   * The engine performs no timezone conversion (spec, section 1), so a
     calendar day is exactly 86400000 ms, `setDate(getDate() + 1)` is
     `+ 86400000`, and `setHours` works against the fixed day grid.
   * JavaScript while-loops are embedded as fuel-indexed structural
     recursions; every call site passes fuel strictly larger than the
     number of iterations the loop can perform, so the fuel never runs out
     (the sole exception, a zero slot duration, makes the JavaScript loop
     diverge and is outside every claim).
   * Methods that can throw are embedded in `Except String`; a JavaScript
     try/catch block becomes a `match` on the `Except` value.
   * `Array.prototype.sort` is mandated by ECMAScript 2019 to be a stable
     sort, so it is embedded as insertion sort, the canonical stable sort.
-/

namespace PetMent

def msPerMinute : Nat := 60000

def msPerHour : Nat := 3600000

def msPerDay : Nat := 86400000

/-- JavaScript `Date.prototype.getDay` (0 = Sunday, ..., 6 = Saturday) in the
engine's single timezone; the epoch day is a Thursday (= 4). -/
def getDay (t : Nat) : Nat := (t / msPerDay + 4) % 7

/-- JavaScript `setHours(0, 0, 0, 0)`: midnight of the instant's calendar
day. -/
def dayFloor (t : Nat) : Nat := t / msPerDay * msPerDay

/-- `AppointmentStatus` from `domain/entities/Appointment.ts`. -/
inductive AppointmentStatus
  | scheduled
  | confirmed
  | cancelled
  | completed
deriving DecidableEq, Repr

/-- `Appointment` from `domain/entities/Appointment.ts`.  Optional string
fields are `Option String`; the ISO instant fields are modelled as the
instants their canonical encodings denote. -/
structure Appointment where
  id : String
  doctorId : String
  doctorName : String
  ownerName : String
  petName : String
  disease : Option String
  startDateISO : Nat
  endDateISO : Nat
  status : AppointmentStatus
  location : Option String
  notes : Option String
  createdAt : Option Nat
  updatedAt : Option Nat
deriving DecidableEq, Repr

/-- `AppointmentCreate` from `domain/entities/Appointment.ts`.  The booking
use case checks its `doctorId`, `startDateISO` and `endDateISO` for
falsiness; an absent or empty ISO field (the only falsy strings) is `none`,
and the falsy empty `doctorId` is the empty string. -/
structure AppointmentCreate where
  doctorId : String
  doctorName : String
  ownerName : String
  petName : String
  disease : Option String
  startDateISO : Option Nat
  endDateISO : Option Nat
  location : Option String
  notes : Option String
deriving DecidableEq, Repr

/-- `Availability` from `domain/entities/Doctor.ts`.  `startTime`/`endTime`
are the `"HH:MM"` strings split into (hours, minutes).  A present `rrule`
descriptor is interpreted by the external `rrule` library, which is not part
of this repository, so a parsed descriptor is modelled opaquely by the
occurrence list `RRule.between` would return for a window; an absent or
unparseable descriptor (the fallback path of `expandAvailabilityToDates`)
is `none`. -/
structure Availability where
  id : String
  weekday : Nat
  startTime : Nat × Nat
  endTime : Nat × Nat
  rrule : Option (Nat → Nat → List Nat)

/-- `Doctor` from `domain/entities/Doctor.ts` (the floating-point `rating`
field is never read by the engine and is omitted). -/
structure Doctor where
  id : String
  name : String
  specialties : List String
  weeklyAvailability : List Availability
  location : String

/-- `TimeSlot` from `domain/entities/Doctor.ts`. -/
structure TimeSlot where
  startISO : Nat
  endISO : Nat
  doctorId : String
deriving DecidableEq, Repr

/-- The two storage collections read and written by the repository layer. -/
structure Env where
  doctors : List Doctor
  appointments : List Appointment

/-! rruleHelpers.ts -/

/-- First while-loop of `expandAvailabilityToDates` (no-rrule path): advance
the cursor one day at a time while its weekday differs from the rule's
weekday and the cursor is still inside the window. -/
def findFirstWeekdayLoop : Nat → Nat → Nat → Nat → Nat
  | 0, current, _, _ => current
  | fuel + 1, current, weekday, toDate =>
    if getDay current ≠ weekday ∧ current ≤ toDate then
      findFirstWeekdayLoop fuel (current + msPerDay) weekday toDate
    else current

/-- Second while-loop of `expandAvailabilityToDates` (no-rrule path): emit
the cursor and step a week at a time while the cursor is ≤ `toDate`. -/
def weeklyOccurrencesLoop : Nat → Nat → Nat → List Nat
  | 0, _, _ => []
  | fuel + 1, current, toDate =>
    if current ≤ toDate then
      current :: weeklyOccurrencesLoop fuel (current + 7 * msPerDay) toDate
    else []

/-- `expandAvailabilityToDates` from `shared/utils/rruleHelpers.ts`.  Both
loops advance by at least one millisecond per iteration and stop once the
cursor exceeds `toDate`, so fuel `toDate + 1` never runs out. -/
def expandAvailabilityToDates (availability : Availability)
    (fromDate toDate : Nat) : List Nat :=
  match availability.rrule with
  | some between => between fromDate toDate
  | none =>
    weeklyOccurrencesLoop (toDate + 1)
      (findFirstWeekdayLoop (toDate + 1) fromDate availability.weekday toDate)
      toDate

/-- The while-loop of `generateSlotsForBlock`: step by `stepMs` from the
cursor while it is before `endDatetime`, emitting a slot whenever the slot
end does not exceed `endDatetime`. -/
def generateSlotsLoop : Nat → Nat → Nat → Nat → List (Nat × Nat)
  | 0, _, _, _ => []
  | fuel + 1, current, endDatetime, stepMs =>
    if current < endDatetime then
      (if current + stepMs ≤ endDatetime
        then [(current, current + stepMs)] else []) ++
        generateSlotsLoop fuel (current + stepMs) endDatetime stepMs
    else []

/-- `generateSlotsForBlock` from `shared/utils/rruleHelpers.ts`.  With a
positive duration the loop advances by at least one millisecond per
iteration, so fuel `endDatetime - startDatetime` never runs out (a zero
duration makes the JavaScript loop diverge; the fuel cap returns the slots
emitted so far instead). -/
def generateSlotsForBlock (startDatetime endDatetime : Nat)
    (slotDurationMinutes : Nat) : List (Nat × Nat) :=
  generateSlotsLoop (endDatetime - startDatetime) startDatetime endDatetime
    (slotDurationMinutes * 60 * 1000)

/-- `combineDateAndTime` from `shared/utils/rruleHelpers.ts`: `setHours`
with the parsed hours and minutes on the date's calendar day. -/
def combineDateAndTime (date : Nat) (timeString : Nat × Nat) : Nat :=
  dayFloor date + timeString.1 * msPerHour + timeString.2 * msPerMinute

/-! AppointmentRepositoryImpl.ts -/

/-- `AppointmentRepositoryImpl.getDoctorById` (`find` + `|| null`). -/
def getDoctorById (doctors : List Doctor) (id : String) : Option Doctor :=
  doctors.find? fun doctor => doctor.id == id

/-- `AppointmentRepositoryImpl.getAppointmentById` (`find` + `|| null`). -/
def getAppointmentById (appointments : List Appointment) (id : String) :
    Option Appointment :=
  appointments.find? fun appointment => appointment.id == id

/-- `AppointmentRepositoryImpl.getAppointmentsByDoctorAndDateRange`. -/
def getAppointmentsByDoctorAndDateRange (appointments : List Appointment)
    (doctorId : String) (startDate endDate : Nat) : List Appointment :=
  appointments.filter fun appointment =>
    appointment.doctorId == doctorId &&
      ((startDate ≤ appointment.startDateISO &&
          appointment.startDateISO ≤ endDate) ||
        (startDate ≤ appointment.endDateISO &&
          appointment.endDateISO ≤ endDate) ||
        (appointment.startDateISO ≤ startDate &&
          appointment.endDateISO ≥ endDate))

/-- `AppointmentRepositoryImpl.createAppointment` (`push` then save). -/
def createAppointment (appointments : List Appointment)
    (appointment : Appointment) : List Appointment :=
  appointments ++ [appointment]

/-- `AppointmentRepositoryImpl.updateAppointment` (`findIndex`, throw when
absent, else overwrite in place). -/
def updateAppointment (appointments : List Appointment)
    (appointment : Appointment) : Except String (List Appointment) :=
  match appointments.findIdx? (fun a => a.id == appointment.id) with
  | none =>
    .error ("Appointment with ID " ++ appointment.id ++ " not found")
  | some index => .ok (appointments.set index appointment)

/-! GetAvailableSlotsUseCase.ts -/

/-- `GetAvailableSlotsUseCase.generateAllPossibleSlots`: expand every
availability rule to dates, combine each date with the rule's times, skip a
block whose end is already in the past, slice the block into slots and skip
any individual slot whose start is already in the past. -/
def generateAllPossibleSlots (doctor : Doctor) (startDate endDate : Nat)
    (slotDurationMinutes : Nat) (now : Nat) : List TimeSlot :=
  doctor.weeklyAvailability.flatMap fun availability =>
    (expandAvailabilityToDates availability startDate endDate).flatMap
      fun date =>
        let startDateTime := combineDateAndTime date availability.startTime
        let endDateTime := combineDateAndTime date availability.endTime
        if endDateTime < now then []
        else
          (generateSlotsForBlock startDateTime endDateTime
              slotDurationMinutes).filterMap fun slot =>
            if slot.1 < now then none
            else some ⟨slot.1, slot.2, doctor.id⟩

/-- `GetAvailableSlotsUseCase.filterBookedSlots`: drop a slot when it
conflicts with some existing appointment; cancelled appointments are
skipped by the conflict test. -/
def filterBookedSlots (allSlots : List TimeSlot)
    (existingAppointments : List Appointment) : List TimeSlot :=
  allSlots.filter fun slot =>
    !(existingAppointments.any fun appointment =>
      if appointment.status = .cancelled then false
      else
        (appointment.startDateISO ≤ slot.startISO &&
            slot.startISO < appointment.endDateISO) ||
          (appointment.startDateISO < slot.endISO &&
            slot.endISO ≤ appointment.endDateISO) ||
          (slot.startISO ≤ appointment.startDateISO &&
            slot.endISO ≥ appointment.endDateISO))

/-- The sort relation of `GetAvailableSlotsUseCase.execute`'s comparator
`(a, b) => new Date(a.startISO).getTime() - new Date(b.startISO).getTime()`. -/
def slotLe (a b : TimeSlot) : Prop := a.startISO ≤ b.startISO

instance : DecidableRel slotLe := fun a b => Nat.decLe a.startISO b.startISO

instance : IsTotal TimeSlot slotLe := ⟨fun a b => Nat.le_total a.startISO b.startISO⟩

instance : IsTrans TimeSlot slotLe := ⟨fun _ _ _ => Nat.le_trans⟩

/-- `GetAvailableSlotsUseCase.execute`.  The unknown-doctor throw is the
`Except.error`; the final stable sort is insertion sort. -/
def GetAvailableSlotsUseCase.execute (env : Env) (now : Nat)
    (doctorId : String) (fromDate toDate : Nat)
    (slotDurationMinutes : Nat) : Except String (List TimeSlot) :=
  match getDoctorById env.doctors doctorId with
  | none => .error ("Doctor with ID " ++ doctorId ++ " not found")
  | some doctor =>
    .ok (List.insertionSort slotLe
      (filterBookedSlots
        (generateAllPossibleSlots doctor fromDate toDate
          slotDurationMinutes now)
        (getAppointmentsByDoctorAndDateRange env.appointments doctorId
          fromDate toDate)))

/-- `GetAvailableSlotsUseCase.getNextAvailableSlots`: the full pipeline over
the window from now to 30 days ahead, truncated to the first `count`
slots.  An error thrown by `execute` propagates. -/
def GetAvailableSlotsUseCase.getNextAvailableSlots (env : Env) (now : Nat)
    (doctorId : String) (count : Nat) (slotDurationMinutes : Nat) :
    Except String (List TimeSlot) :=
  match GetAvailableSlotsUseCase.execute env now doctorId now
      (now + 30 * msPerDay) slotDurationMinutes with
  | .error e => .error e
  | .ok allSlots => .ok (allSlots.take count)

/-! BookAppointmentUseCase.ts -/

/-- `BookingResult` from `BookAppointmentUseCase.ts`; the alternative slots
are the `{startISO, endISO}` pairs. -/
structure BookingResult where
  success : Bool
  appointment : Option Appointment
  error : Option String
  nextAvailableSlots : Option (List (Nat × Nat))
deriving DecidableEq, Repr

/-- `BookAppointmentUseCase.validateSlotAvailability`: recompute the
available slots for the requested start's calendar day
(`setHours(0,0,0,0)` to `setHours(23,59,59,999)`, with the default slot
duration 30) and test for a slot whose start and end equal the request
exactly.  Its try/catch turns any error into `false`. -/
def BookAppointmentUseCase.validateSlotAvailability (env : Env) (now : Nat)
    (doctorId : String) (startISO endISO : Nat) : Bool :=
  match GetAvailableSlotsUseCase.execute env now doctorId
      (dayFloor startISO) (dayFloor startISO + (msPerDay - 1)) 30 with
  | .error _ => false
  | .ok availableSlots =>
    availableSlots.any fun slot =>
      slot.startISO == startISO && slot.endISO == endISO

/-- `BookAppointmentUseCase.execute`.  `freshId` is the `generateUUID()`
result; `now` is the current instant.  The enclosing try/catch turns an
error thrown by `getNextAvailableSlots` into a failure result with the
thrown message.  Returns the booking result together with the stored
appointment collection after the call. -/
def BookAppointmentUseCase.execute (env : Env) (now : Nat)
    (freshId : String) (appointmentData : AppointmentCreate) :
    BookingResult × List Appointment :=
  match appointmentData.startDateISO, appointmentData.endDateISO with
  | some startTime, some endTime =>
    if appointmentData.doctorId = "" then
      (⟨false, none, some "Missing required appointment data", none⟩,
        env.appointments)
    else if endTime ≤ startTime then
      (⟨false, none, some "End time must be after start time", none⟩,
        env.appointments)
    else if startTime < now then
      (⟨false, none, some "Cannot book appointments in the past", none⟩,
        env.appointments)
    else if BookAppointmentUseCase.validateSlotAvailability env now
        appointmentData.doctorId startTime endTime then
      let appointment : Appointment :=
        ⟨freshId, appointmentData.doctorId, appointmentData.doctorName,
          appointmentData.ownerName, appointmentData.petName,
          appointmentData.disease, startTime, endTime, .scheduled,
          appointmentData.location, appointmentData.notes, some now,
          some now⟩
      (⟨true, some appointment, none, none⟩,
        createAppointment env.appointments appointment)
    else
      match GetAvailableSlotsUseCase.getNextAvailableSlots env now
          appointmentData.doctorId 3 30 with
      | .error e => (⟨false, none, some e, none⟩, env.appointments)
      | .ok nextSlots =>
        (⟨false, none, some "Slot already booked",
            some (nextSlots.map fun slot => (slot.startISO, slot.endISO))⟩,
          env.appointments)
  | _, _ =>
    (⟨false, none, some "Missing required appointment data", none⟩,
      env.appointments)

/-- `BookAppointmentUseCase.reschedule`: fetch the appointment, re-check the
new times against the freshly recomputed slots of the appointment's doctor,
and on success overwrite start, end and update instant in place. -/
def BookAppointmentUseCase.reschedule (env : Env) (now : Nat)
    (appointmentId : String) (newStartISO newEndISO : Nat) :
    BookingResult × List Appointment :=
  match getAppointmentById env.appointments appointmentId with
  | none => (⟨false, none, some "Appointment not found", none⟩,
      env.appointments)
  | some existingAppointment =>
    if BookAppointmentUseCase.validateSlotAvailability env now
        existingAppointment.doctorId newStartISO newEndISO then
      let updatedAppointment : Appointment :=
        { existingAppointment with
          startDateISO := newStartISO
          endDateISO := newEndISO
          updatedAt := some now }
      match updateAppointment env.appointments updatedAppointment with
      | .error e => (⟨false, none, some e, none⟩, env.appointments)
      | .ok appointments =>
        (⟨true, some updatedAppointment, none, none⟩, appointments)
    else
      match GetAvailableSlotsUseCase.getNextAvailableSlots env now
          existingAppointment.doctorId 3 30 with
      | .error e => (⟨false, none, some e, none⟩, env.appointments)
      | .ok nextSlots =>
        (⟨false, none, some "New slot already booked",
            some (nextSlots.map fun slot => (slot.startISO, slot.endISO))⟩,
          env.appointments)

/-! CancelAppointmentUseCase.ts -/

/-- `CancelResult` from `CancelAppointmentUseCase.ts`. -/
structure CancelResult where
  success : Bool
  appointment : Option Appointment
  error : Option String
deriving DecidableEq, Repr

/-- JavaScript `String.prototype.trim`: strip leading and trailing
whitespace (embedded over the string's character list so that it computes
by kernel reduction). -/
def isJsWhitespace (c : Char) : Bool :=
  c == ' ' || c == '\n' || c == '\t' || c == '\r'

/-- JavaScript `String.prototype.trim` over the character list. -/
def jsTrim (s : String) : String :=
  ⟨((s.data.dropWhile isJsWhitespace).reverse.dropWhile
      isJsWhitespace).reverse⟩

/-- `CancelAppointmentUseCase.execute`.  A falsy `reason` (absent or the
empty string) leaves the notes unchanged; otherwise the reason is appended
to the existing notes (`|| ''`) with a newline and the template prefix,
then trimmed. -/
def CancelAppointmentUseCase.execute (appointments : List Appointment)
    (now : Nat) (appointmentId : String) (reason : Option String) :
    CancelResult × List Appointment :=
  match getAppointmentById appointments appointmentId with
  | none => (⟨false, none, some "Appointment not found"⟩, appointments)
  | some existingAppointment =>
    if existingAppointment.status = .cancelled then
      (⟨false, none, some "Appointment is already cancelled"⟩, appointments)
    else if existingAppointment.startDateISO < now then
      (⟨false, none, some "Cannot cancel past appointments"⟩, appointments)
    else
      let cancelledAppointment : Appointment :=
        { existingAppointment with
          status := .cancelled
          notes :=
            match reason with
            | some r =>
              if r = "" then existingAppointment.notes
              else some (jsTrim ((existingAppointment.notes.getD "") ++
                "\n" ++ "Cancellation reason: " ++ r))
            | none => existingAppointment.notes
          updatedAt := some now }
      match updateAppointment appointments cancelledAppointment with
      | .error e => (⟨false, none, some e⟩, appointments)
      | .ok updated => (⟨true, some cancelledAppointment, none⟩, updated)

/-! Helper lemmas: the slot-slicing loop as a closed form. -/

/-- With a positive step and sufficient fuel, the slicing loop is the
arithmetic progression of full-length slots that fit in the block. -/
theorem generateSlotsLoop_eq_rangeMap (step : Nat) (hs : 0 < step) :
    ∀ fuel current endD, endD - current ≤ fuel →
      generateSlotsLoop fuel current endD step =
        (List.range ((endD - current) / step)).map
          (fun i => (current + i * step, current + i * step + step)) := by
  intro fuel
  induction fuel with
  | zero =>
    intro current endD hf
    have h0 : endD - current = 0 := by omega
    simp [generateSlotsLoop, h0]
  | succ fuel ih =>
    intro current endD hf
    by_cases hc : current < endD
    · rw [show generateSlotsLoop (fuel + 1) current endD step =
          (if current + step ≤ endD then [(current, current + step)] else [])
            ++ generateSlotsLoop fuel (current + step) endD step from by
        simp [generateSlotsLoop, hc]]
      rw [ih (current + step) endD (by omega)]
      by_cases he : current + step ≤ endD
      · have hdiv : (endD - current) / step = (endD - (current + step)) / step + 1 := by
          have h1 : step ≤ endD - current := by omega
          have h2 : endD - current - step = endD - (current + step) := by omega
          rw [Nat.div_eq_sub_div hs h1, h2]
        rw [hdiv, List.range_succ_eq_map, if_pos he]
        simp only [List.map_cons, List.map_map, Nat.zero_mul, Nat.add_zero,
          List.singleton_append, List.cons.injEq, true_and]
        exact List.map_congr_left fun i _ => by
          simp only [Function.comp_apply, Nat.succ_eq_add_one, Prod.mk.injEq]
          constructor <;> ring
      · have h1 : (endD - current) / step = 0 := Nat.div_eq_of_lt (by omega)
        have h2 : endD - (current + step) = 0 := by omega
        rw [if_neg he, h1, h2]
        simp
    · have h0 : endD - current = 0 := by omega
      simp [generateSlotsLoop, hc, h0]

/-- C4.  The Slot Slicer emits exactly the ordered arithmetic progression of
contiguous slots stepped by the duration from the block start; every emitted
slot has length exactly the duration and ends no later than the block end (a
shorter trailing remainder is never emitted), and a degenerate block (end ≤
start) yields the empty sequence. -/
theorem generateSlotsForBlock_spec (startDatetime endDatetime slotDurationMinutes : Nat)
    (hd : 0 < slotDurationMinutes) :
    generateSlotsForBlock startDatetime endDatetime slotDurationMinutes =
      (List.range ((endDatetime - startDatetime) / (slotDurationMinutes * 60 * 1000))).map
        (fun i => (startDatetime + i * (slotDurationMinutes * 60 * 1000),
          startDatetime + i * (slotDurationMinutes * 60 * 1000) +
            slotDurationMinutes * 60 * 1000))
    ∧ (∀ p ∈ generateSlotsForBlock startDatetime endDatetime slotDurationMinutes,
        p.2 = p.1 + slotDurationMinutes * 60 * 1000 ∧ startDatetime ≤ p.1 ∧
          p.2 ≤ endDatetime)
    ∧ (endDatetime ≤ startDatetime →
        generateSlotsForBlock startDatetime endDatetime slotDurationMinutes = []) := by
  have hstep : 0 < slotDurationMinutes * 60 * 1000 := by positivity
  have hmain := generateSlotsLoop_eq_rangeMap (slotDurationMinutes * 60 * 1000) hstep
    (endDatetime - startDatetime) startDatetime endDatetime (Nat.le_refl _)
  refine ⟨hmain, ?_, ?_⟩
  · intro p hp
    rw [generateSlotsForBlock, hmain] at hp
    simp only [List.mem_map, List.mem_range] at hp
    obtain ⟨i, hi, rfl⟩ := hp
    dsimp only
    have hle : (i + 1) * (slotDurationMinutes * 60 * 1000) ≤ endDatetime - startDatetime :=
      (Nat.le_div_iff_mul_le hstep).mp hi
    rw [Nat.succ_mul] at hle
    refine ⟨rfl, Nat.le_add_right _ _, ?_⟩
    generalize i * (slotDurationMinutes * 60 * 1000) = k at hle ⊢
    omega
  · intro h
    rw [generateSlotsForBlock, hmain]
    have h0 : endDatetime - startDatetime = 0 := by omega
    simp [h0]

/-- Witness for C4 at a concrete 90-minute block and 30-minute duration. -/
theorem generateSlotsForBlock_spec_witness :
    0 < 30 ∧
      (generateSlotsForBlock 0 5400000 30 =
          (List.range ((5400000 - 0) / (30 * 60 * 1000))).map
            (fun i => (0 + i * (30 * 60 * 1000),
              0 + i * (30 * 60 * 1000) + 30 * 60 * 1000))
        ∧ (∀ p ∈ generateSlotsForBlock 0 5400000 30,
            p.2 = p.1 + 30 * 60 * 1000 ∧ 0 ≤ p.1 ∧ p.2 ≤ 5400000)
        ∧ (5400000 ≤ 0 → generateSlotsForBlock 0 5400000 30 = [])) :=
  ⟨by decide, generateSlotsForBlock_spec 0 5400000 30 (by decide)⟩

/-! Helper lemmas: the two loops of the no-rrule recurrence expansion. -/

/-- The day-by-day scan never moves the cursor backwards. -/
theorem findFirstWeekdayLoop_le :
    ∀ fuel current weekday toDate,
      current ≤ findFirstWeekdayLoop fuel current weekday toDate := by
  intro fuel
  induction fuel with
  | zero => intro current weekday toDate; simp [findFirstWeekdayLoop]
  | succ fuel ih =>
    intro current weekday toDate
    rw [findFirstWeekdayLoop]
    split
    · exact Nat.le_trans (by omega) (ih (current + msPerDay) weekday toDate)
    · exact Nat.le_refl current

/-- With sufficient fuel the day-by-day scan ends either on the requested
weekday or strictly past the window. -/
theorem findFirstWeekdayLoop_spec :
    ∀ fuel current weekday toDate, toDate + 1 ≤ fuel + current →
      getDay (findFirstWeekdayLoop fuel current weekday toDate) = weekday ∨
        toDate < findFirstWeekdayLoop fuel current weekday toDate := by
  intro fuel
  induction fuel with
  | zero =>
    intro current weekday toDate hf
    right
    simpa [findFirstWeekdayLoop] using (by omega : toDate < current)
  | succ fuel ih =>
    intro current weekday toDate hf
    rw [findFirstWeekdayLoop]
    split
    · exact ih (current + msPerDay) weekday toDate (by unfold msPerDay; omega)
    · rename_i h
      rw [Decidable.not_and_iff_or_not] at h
      rcases h with h | h
      · exact Or.inl (Decidable.not_not.mp h)
      · exact Or.inr (by omega)

/-- Every member of the weekly loop is the starting cursor plus a whole
number of weeks and still inside the window. -/
theorem weeklyOccurrencesLoop_mem :
    ∀ fuel current toDate d, d ∈ weeklyOccurrencesLoop fuel current toDate →
      ∃ k, d = current + k * (7 * msPerDay) ∧ d ≤ toDate := by
  intro fuel
  induction fuel with
  | zero => intro current toDate d hd; simp [weeklyOccurrencesLoop] at hd
  | succ fuel ih =>
    intro current toDate d hd
    rw [weeklyOccurrencesLoop] at hd
    by_cases h : current ≤ toDate
    · rw [if_pos h] at hd
      rcases List.mem_cons.mp hd with rfl | hd
      · exact ⟨0, by omega, h⟩
      · obtain ⟨k, hk, hle⟩ := ih (current + 7 * msPerDay) toDate d hd
        exact ⟨k + 1, by rw [hk]; ring, hle⟩
    · rw [if_neg h] at hd
      simp at hd

/-- A nonempty weekly loop starts with its starting cursor. -/
theorem weeklyOccurrencesLoop_head :
    ∀ fuel current toDate, weeklyOccurrencesLoop fuel current toDate ≠ [] →
      (weeklyOccurrencesLoop fuel current toDate)[0]! = current := by
  intro fuel current toDate hne
  cases fuel with
  | zero => simp [weeklyOccurrencesLoop] at hne
  | succ fuel =>
    rw [weeklyOccurrencesLoop] at hne ⊢
    by_cases h : current ≤ toDate
    · rw [if_pos h]
      simp
    · rw [if_neg h] at hne
      simp at hne

/-- Consecutive members of the weekly loop are exactly one week apart. -/
theorem weeklyOccurrencesLoop_chain :
    ∀ fuel current toDate i,
      i + 1 < (weeklyOccurrencesLoop fuel current toDate).length →
      (weeklyOccurrencesLoop fuel current toDate)[i + 1]! =
        (weeklyOccurrencesLoop fuel current toDate)[i]! + 7 * msPerDay := by
  intro fuel
  induction fuel with
  | zero => intro current toDate i hi; simp [weeklyOccurrencesLoop] at hi
  | succ fuel ih =>
    intro current toDate i hi
    rw [weeklyOccurrencesLoop] at hi ⊢
    by_cases h : current ≤ toDate
    · rw [if_pos h] at hi ⊢
      cases i with
      | zero =>
        have hne : weeklyOccurrencesLoop fuel (current + 7 * msPerDay) toDate ≠ [] := by
          intro hnil
          rw [List.length_cons, hnil] at hi
          simp at hi
        rw [List.getElem!_cons_succ, List.getElem!_cons_zero,
          weeklyOccurrencesLoop_head fuel (current + 7 * msPerDay) toDate hne]
      | succ j =>
        rw [List.getElem!_cons_succ, List.getElem!_cons_succ]
        exact ih (current + 7 * msPerDay) toDate j
          (by rw [List.length_cons] at hi; omega)
    · rw [if_neg h] at hi
      simp at hi

/-- Stepping a whole number of weeks preserves the weekday. -/
theorem getDay_add_weeks (t k : Nat) : getDay (t + k * (7 * msPerDay)) = getDay t := by
  unfold getDay msPerDay
  omega

/-- C5.  With no recurrence descriptor, the expansion (day-by-day scan to the
first matching weekday, then weekly steps) emits only dates whose weekday is
the rule's weekday, all inside the closed window, and consecutive emitted
dates are exactly 7 days apart. -/
theorem expandAvailabilityToDates_no_rrule_spec (availability : Availability)
    (fromDate toDate : Nat) (hrr : availability.rrule = none) :
    (∀ d ∈ expandAvailabilityToDates availability fromDate toDate,
        getDay d = availability.weekday ∧ fromDate ≤ d ∧ d ≤ toDate)
    ∧ (∀ i, i + 1 < (expandAvailabilityToDates availability fromDate toDate).length →
        (expandAvailabilityToDates availability fromDate toDate)[i + 1]! =
          (expandAvailabilityToDates availability fromDate toDate)[i]! + 7 * msPerDay) := by
  rw [expandAvailabilityToDates, hrr]
  constructor
  · intro d hd
    obtain ⟨k, hk, hle⟩ := weeklyOccurrencesLoop_mem _ _ _ d hd
    have hfirst := findFirstWeekdayLoop_le (toDate + 1) fromDate availability.weekday toDate
    have hspec := findFirstWeekdayLoop_spec (toDate + 1) fromDate availability.weekday toDate
      (by omega)
    rcases hspec with hwd | hpast
    · subst hk
      exact ⟨by rw [getDay_add_weeks, hwd], by omega, hle⟩
    · exact absurd hle (by omega)
  · intro i hi
    exact weeklyOccurrencesLoop_chain _ _ _ i hi

/-- Witness for C5: the Monday rule expanded over two concrete weeks starting
on a Monday; the theorem is instantiated there and its conclusion evaluated
at the first emitted date and first consecutive pair. -/
theorem expandAvailabilityToDates_no_rrule_spec_witness :
    ((⟨"r1", 1, (9, 0), (12, 0), none⟩ : Availability).rrule = none)
    ∧ (∀ d ∈ expandAvailabilityToDates ⟨"r1", 1, (9, 0), (12, 0), none⟩
          345600000 (345600000 + 14 * msPerDay),
        getDay d = (⟨"r1", 1, (9, 0), (12, 0), none⟩ : Availability).weekday ∧
          345600000 ≤ d ∧ d ≤ 345600000 + 14 * msPerDay)
    ∧ (∀ i, i + 1 < (expandAvailabilityToDates ⟨"r1", 1, (9, 0), (12, 0), none⟩
          345600000 (345600000 + 14 * msPerDay)).length →
        (expandAvailabilityToDates ⟨"r1", 1, (9, 0), (12, 0), none⟩
          345600000 (345600000 + 14 * msPerDay))[i + 1]! =
          (expandAvailabilityToDates ⟨"r1", 1, (9, 0), (12, 0), none⟩
            345600000 (345600000 + 14 * msPerDay))[i]! + 7 * msPerDay) :=
  ⟨rfl,
    (expandAvailabilityToDates_no_rrule_spec ⟨"r1", 1, (9, 0), (12, 0), none⟩
      345600000 (345600000 + 14 * msPerDay) rfl).1,
    (expandAvailabilityToDates_no_rrule_spec ⟨"r1", 1, (9, 0), (12, 0), none⟩
      345600000 (345600000 + 14 * msPerDay) rfl).2⟩

/-- C3.  The Conflict Filter removes a candidate slot exactly when some
non-cancelled appointment overlaps it under the code's asymmetric predicate
(slot start inside the appointment, slot end inside half-open from the
right, or the slot containing the appointment); in particular a cancelled
appointment never causes a removal. -/
theorem filterBookedSlots_removes_iff (allSlots : List TimeSlot)
    (appointments : List Appointment) (slot : TimeSlot)
    (hmem : slot ∈ allSlots) :
    slot ∉ filterBookedSlots allSlots appointments ↔
      ∃ a ∈ appointments, a.status ≠ .cancelled ∧
        ((a.startDateISO ≤ slot.startISO ∧ slot.startISO < a.endDateISO) ∨
          (a.startDateISO < slot.endISO ∧ slot.endISO ≤ a.endDateISO) ∨
          (slot.startISO ≤ a.startDateISO ∧ a.endDateISO ≤ slot.endISO)) := by
  rw [filterBookedSlots, List.mem_filter]
  simp only [hmem, true_and, Bool.not_eq_true, Bool.not_eq_false',
    List.any_eq_true]
  refine exists_congr fun a => and_congr_right fun _ => ?_
  by_cases hc : a.status = AppointmentStatus.cancelled <;>
    simp [hc, ge_iff_le, or_assoc]

/-- Witness for C3: a single candidate against one cancelled overlapping
appointment; the filter keeps the slot, matching the absence of a
non-cancelled overlap. -/
theorem filterBookedSlots_removes_iff_witness :
    ((⟨378000000, 379800000, "doc1"⟩ : TimeSlot) ∈
        [(⟨378000000, 379800000, "doc1"⟩ : TimeSlot)])
    ∧ ((⟨378000000, 379800000, "doc1"⟩ : TimeSlot) ∉
        filterBookedSlots [⟨378000000, 379800000, "doc1"⟩]
          [⟨"a1", "doc1", "Dr. A", "Own", "Pet", none, 378000000, 379800000,
            .cancelled, none, none, none, none⟩] ↔
      ∃ a ∈ [(⟨"a1", "doc1", "Dr. A", "Own", "Pet", none, 378000000,
            379800000, .cancelled, none, none, none, none⟩ : Appointment)],
        a.status ≠ .cancelled ∧
          ((a.startDateISO ≤ (⟨378000000, 379800000, "doc1"⟩ : TimeSlot).startISO ∧
              (⟨378000000, 379800000, "doc1"⟩ : TimeSlot).startISO < a.endDateISO) ∨
            (a.startDateISO < (⟨378000000, 379800000, "doc1"⟩ : TimeSlot).endISO ∧
              (⟨378000000, 379800000, "doc1"⟩ : TimeSlot).endISO ≤ a.endDateISO) ∨
            ((⟨378000000, 379800000, "doc1"⟩ : TimeSlot).startISO ≤ a.startDateISO ∧
              a.endDateISO ≤ (⟨378000000, 379800000, "doc1"⟩ : TimeSlot).endISO))) :=
  ⟨by decide,
    filterBookedSlots_removes_iff _ _ _ (by decide)⟩

/-! Helper lemmas: every aggregated candidate is future-dated, and the
pipeline output of a successful slot query. -/

/-- Every slot produced by the aggregation stage starts at or after `now`
(past blocks are skipped wholesale and past slots individually). -/
theorem generateAllPossibleSlots_future (doctor : Doctor)
    (startDate endDate duration now : Nat) :
    ∀ slot ∈ generateAllPossibleSlots doctor startDate endDate duration now,
      now ≤ slot.startISO := by
  intro slot hs
  simp only [generateAllPossibleSlots, List.mem_flatMap] at hs
  obtain ⟨availability, -, date, -, hs⟩ := hs
  split at hs
  · simp at hs
  · rw [List.mem_filterMap] at hs
    obtain ⟨p, -, heq⟩ := hs
    split at heq
    · exact absurd heq (by simp)
    · rename_i hlt
      cases heq
      exact Nat.le_of_not_lt hlt

/-- A successful `execute` is the sorted, conflict-filtered aggregation for
the doctor that was found. -/
theorem execute_ok_cases (env : Env) (now : Nat) (doctorId : String)
    (fromDate toDate duration : Nat) (slots : List TimeSlot)
    (h : GetAvailableSlotsUseCase.execute env now doctorId fromDate toDate
      duration = .ok slots) :
    ∃ doctor, getDoctorById env.doctors doctorId = some doctor ∧
      slots = List.insertionSort slotLe
        (filterBookedSlots
          (generateAllPossibleSlots doctor fromDate toDate duration now)
          (getAppointmentsByDoctorAndDateRange env.appointments doctorId
            fromDate toDate)) := by
  rw [GetAvailableSlotsUseCase.execute] at h
  cases hd : getDoctorById env.doctors doctorId with
  | none => rw [hd] at h; exact absurd h (by simp)
  | some doctor =>
    rw [hd] at h
    exact ⟨doctor, rfl, (Except.ok.inj h).symm⟩

/-- A successful `execute` returns a list sorted ascending by start. -/
theorem execute_ok_sorted (env : Env) (now : Nat) (doctorId : String)
    (fromDate toDate duration : Nat) (slots : List TimeSlot)
    (h : GetAvailableSlotsUseCase.execute env now doctorId fromDate toDate
      duration = .ok slots) :
    List.Sorted slotLe slots := by
  obtain ⟨doctor, -, rfl⟩ :=
    execute_ok_cases env now doctorId fromDate toDate duration slots h
  exact List.sorted_insertionSort slotLe _

/-- A successful `execute` returns only slots starting at or after `now`. -/
theorem execute_ok_future (env : Env) (now : Nat) (doctorId : String)
    (fromDate toDate duration : Nat) (slots : List TimeSlot)
    (h : GetAvailableSlotsUseCase.execute env now doctorId fromDate toDate
      duration = .ok slots) :
    ∀ slot ∈ slots, now ≤ slot.startISO := by
  obtain ⟨doctor, -, rfl⟩ :=
    execute_ok_cases env now doctorId fromDate toDate duration slots h
  intro slot hs
  have hmemf := ((List.perm_insertionSort slotLe _).mem_iff).mp hs
  rw [filterBookedSlots, List.mem_filter] at hmemf
  exact generateAllPossibleSlots_future doctor fromDate toDate duration now
    slot hmemf.1

/-- C6.  A successful slot listing contains no slot starting before the
current instant and is sorted ascending by start instant; moreover the
listing is complete for blocks that are not wholly past: every slot sliced
from a block whose end is not before now, itself starting at or after now
and conflicting with no fetched non-cancelled appointment, is in the
returned list — in particular a block whose start is in the past but whose
end is in the future still contributes its future-dated slots. -/
theorem listAvailableSlots_future_and_sorted (env : Env) (now : Nat)
    (doctorId : String) (fromDate toDate duration : Nat)
    (slots : List TimeSlot)
    (h : GetAvailableSlotsUseCase.execute env now doctorId fromDate toDate
      duration = .ok slots) :
    (∀ slot ∈ slots, now ≤ slot.startISO) ∧ List.Sorted slotLe slots
    ∧ (∀ doctor, getDoctorById env.doctors doctorId = some doctor →
        ∀ availability ∈ doctor.weeklyAvailability,
        ∀ date ∈ expandAvailabilityToDates availability fromDate toDate,
        now ≤ combineDateAndTime date availability.endTime →
        ∀ p ∈ generateSlotsForBlock
          (combineDateAndTime date availability.startTime)
          (combineDateAndTime date availability.endTime) duration,
        now ≤ p.1 →
        (∀ a ∈ getAppointmentsByDoctorAndDateRange env.appointments doctorId
            fromDate toDate,
          a.status ≠ AppointmentStatus.cancelled →
          ¬ ((a.startDateISO ≤ p.1 ∧ p.1 < a.endDateISO) ∨
              (a.startDateISO < p.2 ∧ p.2 ≤ a.endDateISO) ∨
              (p.1 ≤ a.startDateISO ∧ a.endDateISO ≤ p.2))) →
        (⟨p.1, p.2, doctor.id⟩ : TimeSlot) ∈ slots) := by
  refine ⟨execute_ok_future env now doctorId fromDate toDate duration slots
    h, execute_ok_sorted env now doctorId fromDate toDate duration slots h,
    ?_⟩
  obtain ⟨doctor0, hd0, rfl⟩ :=
    execute_ok_cases env now doctorId fromDate toDate duration slots h
  intro doctor hdoc availability hav date hdate hend p hp hnp hnc
  rw [hdoc] at hd0
  have heq : doctor = doctor0 := Option.some.inj hd0
  subst heq
  have hmemgen : (⟨p.1, p.2, doctor.id⟩ : TimeSlot) ∈
      generateAllPossibleSlots doctor fromDate toDate duration now := by
    rw [generateAllPossibleSlots]
    simp only [List.mem_flatMap]
    refine ⟨availability, hav, date, hdate, ?_⟩
    dsimp only
    rw [if_neg (by omega : ¬ combineDateAndTime date availability.endTime
      < now)]
    rw [List.mem_filterMap]
    refine ⟨p, hp, ?_⟩
    rw [if_neg (by omega : ¬ p.1 < now)]
  have hanyf : ((getAppointmentsByDoctorAndDateRange env.appointments
      doctorId fromDate toDate).any fun appointment =>
        if appointment.status = AppointmentStatus.cancelled then false
        else
          (appointment.startDateISO ≤ (⟨p.1, p.2, doctor.id⟩ :
              TimeSlot).startISO &&
            (⟨p.1, p.2, doctor.id⟩ : TimeSlot).startISO <
              appointment.endDateISO) ||
          (appointment.startDateISO < (⟨p.1, p.2, doctor.id⟩ :
              TimeSlot).endISO &&
            (⟨p.1, p.2, doctor.id⟩ : TimeSlot).endISO ≤
              appointment.endDateISO) ||
          ((⟨p.1, p.2, doctor.id⟩ : TimeSlot).startISO ≤
              appointment.startDateISO &&
            (⟨p.1, p.2, doctor.id⟩ : TimeSlot).endISO ≥
              appointment.endDateISO)) = false := by
    rw [Bool.eq_false_iff]
    intro hany
    rw [List.any_eq_true] at hany
    obtain ⟨a, ha, hpa⟩ := hany
    by_cases hc : a.status = AppointmentStatus.cancelled
    · rw [if_pos hc] at hpa
      exact absurd hpa (by simp)
    · rw [if_neg hc] at hpa
      apply hnc a ha hc
      simpa [Bool.or_eq_true, Bool.and_eq_true, decide_eq_true_eq,
        ge_iff_le, or_assoc] using hpa
  have hmemfil : (⟨p.1, p.2, doctor.id⟩ : TimeSlot) ∈
      filterBookedSlots
        (generateAllPossibleSlots doctor fromDate toDate duration now)
        (getAppointmentsByDoctorAndDateRange env.appointments doctorId
          fromDate toDate) := by
    rw [filterBookedSlots, List.mem_filter]
    exact ⟨hmemgen, by rw [hanyf]; rfl⟩
  exact ((List.perm_insertionSort slotLe _).mem_iff).mpr hmemfil

/-! Shared concrete data for witnesses and counterexamples.  Day 4 of the
epoch calendar (1970-01-05) is a Monday. -/

def exMonday : Nat := 4 * msPerDay

/-- A Monday 09:00-10:00 rule with no recurrence descriptor. -/
def exRuleMorning : Availability := ⟨"r2", 1, (9, 0), (10, 0), none⟩

def exDoctorMorning : Doctor :=
  ⟨"doc1", "Dr. A", ["general"], [exRuleMorning], "clinic"⟩

def exEnvMorning : Env := ⟨[exDoctorMorning], []⟩

/-- Witness for C6: the Monday 09:00-10:00 doctor queried over that Monday
with now at 09:30, midway through the block.  The block's start (09:00) is
already past but its end (10:00) is not, and the returned list is exactly
the block's one future-dated slot [09:30, 10:00), future-dated, sorted, and
complete for that block. -/
theorem listAvailableSlots_future_and_sorted_witness :
    GetAvailableSlotsUseCase.execute exEnvMorning 379800000 "doc1" exMonday
        (exMonday + msPerDay - 1) 30 =
      .ok [⟨379800000, 381600000, "doc1"⟩]
    ∧ ((∀ slot ∈ [(⟨379800000, 381600000, "doc1"⟩ : TimeSlot)],
          379800000 ≤ slot.startISO)
        ∧ List.Sorted slotLe [⟨379800000, 381600000, "doc1"⟩]
        ∧ (∀ doctor, getDoctorById exEnvMorning.doctors "doc1" =
              some doctor →
            ∀ availability ∈ doctor.weeklyAvailability,
            ∀ date ∈ expandAvailabilityToDates availability exMonday
              (exMonday + msPerDay - 1),
            379800000 ≤ combineDateAndTime date availability.endTime →
            ∀ p ∈ generateSlotsForBlock
              (combineDateAndTime date availability.startTime)
              (combineDateAndTime date availability.endTime) 30,
            379800000 ≤ p.1 →
            (∀ a ∈ getAppointmentsByDoctorAndDateRange
                exEnvMorning.appointments "doc1" exMonday
                (exMonday + msPerDay - 1),
              a.status ≠ AppointmentStatus.cancelled →
              ¬ ((a.startDateISO ≤ p.1 ∧ p.1 < a.endDateISO) ∨
                  (a.startDateISO < p.2 ∧ p.2 ≤ a.endDateISO) ∨
                  (p.1 ≤ a.startDateISO ∧ a.endDateISO ≤ p.2))) →
            (⟨p.1, p.2, doctor.id⟩ : TimeSlot) ∈
              [(⟨379800000, 381600000, "doc1"⟩ : TimeSlot)])) :=
  ⟨rfl,
    listAvailableSlots_future_and_sorted exEnvMorning 379800000 "doc1"
      exMonday (exMonday + msPerDay - 1) 30 _ rfl⟩

/-- A Monday 09:00-12:00 rule with no recurrence descriptor (the example of
spec section 8). -/
def exRuleC9 : Availability := ⟨"r1", 1, (9, 0), (12, 0), none⟩

def exDoctorC9 : Doctor :=
  ⟨"doc9", "Dr. B", ["general"], [exRuleC9], "clinic"⟩

/-- Counterexample for C9: over the closed window from a Monday through
exactly 2 weeks (14 days) later, the expansion matches 3 Mondays, so the
pipeline yields 18 candidates, not 12. -/
theorem monday_two_week_window_counterexample :
    (generateAllPossibleSlots exDoctorC9 exMonday (exMonday + 14 * msPerDay)
        30 0).length = 18
    ∧ (generateAllPossibleSlots exDoctorC9 exMonday (exMonday + 14 * msPerDay)
        30 0).length ≠ 12 := by
  decide

/-- C9 (amended).  A window from a Monday that ends before the third
matching Monday (here 13 days later) yields exactly 2 Mondays of 6 slots
each, 12 candidates; the closed window through exactly 2 weeks later
includes a third Monday and yields 18. -/
theorem monday_pipeline_candidate_counts :
    (generateAllPossibleSlots exDoctorC9 exMonday (exMonday + 13 * msPerDay)
        30 0).length = 12
    ∧ (generateAllPossibleSlots exDoctorC9 exMonday (exMonday + 14 * msPerDay)
        30 0).length = 18 := by
  decide

/-! Helper lemmas: `find?`, `findIdx?` and in-place update. -/

/-- A successful `find?` guarantees `findIdx?` succeeds as well (the
repository's `find` and `findIndex` agree on the same predicate). -/
theorem findIdx?_isSome_of_find? {α : Type} (p : α → Bool) :
    ∀ (l : List α) (a : α), l.find? p = some a →
      ∃ i, l.findIdx? p = some i := by
  intro l
  induction l with
  | nil => intro a h; simp at h
  | cons b t ih =>
    intro a h
    by_cases hp : p b = true
    · exact ⟨0, by simp [List.findIdx?_cons, hp]⟩
    · rw [List.find?_cons_of_neg t hp] at h
      obtain ⟨i, hi⟩ := ih a h
      refine ⟨i + 1, ?_⟩
      rw [List.findIdx?_cons, if_neg hp, List.findIdx?_succ, hi]
      rfl

/-- Overwriting the first matching index with another matching element makes
`find?` return the new element. -/
theorem find?_set {α : Type} (p : α → Bool) (a : α)
    (ha : p a = true) :
    ∀ (l : List α) (i : Nat), l.findIdx? p = some i →
      (l.set i a).find? p = some a := by
  intro l
  induction l with
  | nil => intro i h; rw [List.findIdx?_nil] at h; exact absurd h (by simp)
  | cons b t ih =>
    intro i h
    rw [List.findIdx?_cons] at h
    by_cases hp : p b = true
    · rw [if_pos hp] at h
      obtain rfl : (0 : Nat) = i := Option.some.inj h
      rw [show (b :: t).set 0 a = a :: t from rfl]
      exact List.find?_cons_of_pos t ha
    · rw [if_neg hp, List.findIdx?_succ] at h
      obtain ⟨j, hj, hji⟩ := Option.map_eq_some'.mp h
      subst hji
      rw [show (b :: t).set (j + 1) a = b :: t.set j a from rfl,
        List.find?_cons_of_neg _ hp]
      exact ih j hj

/-- `execute` for a stored doctor: the sorted conflict-filtered pipeline. -/
theorem execute_isOk_of_doctor (env : Env) (now : Nat) (doctorId : String)
    (fromDate toDate duration : Nat) (doctor : Doctor)
    (hd : getDoctorById env.doctors doctorId = some doctor) :
    GetAvailableSlotsUseCase.execute env now doctorId fromDate toDate
        duration =
      .ok (List.insertionSort slotLe
        (filterBookedSlots
          (generateAllPossibleSlots doctor fromDate toDate duration now)
          (getAppointmentsByDoctorAndDateRange env.appointments doctorId
            fromDate toDate))) := by
  rw [GetAvailableSlotsUseCase.execute, hd]

/-- The exact-match re-check succeeds exactly when the recomputed day list
holds a slot equal to the requested start and end. -/
theorem validateSlotAvailability_iff (env : Env) (now : Nat)
    (doctorId : String) (s e : Nat) (daySlots : List TimeSlot)
    (hday : GetAvailableSlotsUseCase.execute env now doctorId (dayFloor s)
      (dayFloor s + (msPerDay - 1)) 30 = .ok daySlots) :
    BookAppointmentUseCase.validateSlotAvailability env now doctorId s e =
        true ↔
      ∃ slot ∈ daySlots, slot.startISO = s ∧ slot.endISO = e := by
  rw [BookAppointmentUseCase.validateSlotAvailability, hday,
    List.any_eq_true]
  exact exists_congr fun slot => and_congr_right fun _ => by
    rw [Bool.and_eq_true, beq_iff_eq, beq_iff_eq]

/-- A request whose start is in the past can never pass the exact-match
re-check, because recomputed candidates all start at or after now. -/
theorem validateSlotAvailability_future (env : Env) (now : Nat)
    (doctorId : String) (s e : Nat)
    (h : BookAppointmentUseCase.validateSlotAvailability env now doctorId
      s e = true) :
    now ≤ s := by
  rw [BookAppointmentUseCase.validateSlotAvailability] at h
  cases hex : GetAvailableSlotsUseCase.execute env now doctorId (dayFloor s)
      (dayFloor s + (msPerDay - 1)) 30 with
  | error msg => rw [hex] at h; exact absurd h (by simp)
  | ok slots =>
    rw [hex, List.any_eq_true] at h
    obtain ⟨slot, hs, hpred⟩ := h
    rw [Bool.and_eq_true, beq_iff_eq, beq_iff_eq] at hpred
    have := execute_ok_future env now doctorId (dayFloor s)
      (dayFloor s + (msPerDay - 1)) 30 slots hex slot hs
    omega

/-- C1.  The booking validations run in order, each failure yielding its own
distinct outcome and leaving the stored appointments untouched: missing
provider id / start / end, then end not strictly after start, then start
before the current instant. -/
theorem book_validation_failures (env : Env) (now : Nat) (freshId : String)
    (d : AppointmentCreate) :
    ((d.doctorId = "" ∨ d.startDateISO = none ∨ d.endDateISO = none) →
        BookAppointmentUseCase.execute env now freshId d =
          (⟨false, none, some "Missing required appointment data", none⟩,
            env.appointments))
    ∧ (∀ s e, d.startDateISO = some s → d.endDateISO = some e →
        d.doctorId ≠ "" → e ≤ s →
        BookAppointmentUseCase.execute env now freshId d =
          (⟨false, none, some "End time must be after start time", none⟩,
            env.appointments))
    ∧ (∀ s e, d.startDateISO = some s → d.endDateISO = some e →
        d.doctorId ≠ "" → s < e → s < now →
        BookAppointmentUseCase.execute env now freshId d =
          (⟨false, none, some "Cannot book appointments in the past", none⟩,
            env.appointments)) := by
  refine ⟨?_, ?_, ?_⟩
  · intro hmiss
    cases hs : d.startDateISO with
    | none => cases he : d.endDateISO <;>
        simp [BookAppointmentUseCase.execute, hs, he]
    | some s =>
      cases he : d.endDateISO with
      | none => simp [BookAppointmentUseCase.execute, hs, he]
      | some e =>
        have hdoc : d.doctorId = "" := by
          rcases hmiss with h | h | h
          · exact h
          · rw [hs] at h; exact absurd h (by simp)
          · rw [he] at h; exact absurd h (by simp)
        simp [BookAppointmentUseCase.execute, hs, he, hdoc]
  · intro s e hs he hdoc hle
    simp [BookAppointmentUseCase.execute, hs, he, hdoc, hle]
  · intro s e hs he hdoc hlt hpast
    simp [BookAppointmentUseCase.execute, hs, he, hdoc, hpast, hlt,
      (by omega : ¬ e ≤ s)]

/-- Witness for C1: the three failure shapes at concrete requests (missing
doctor id; end equal to start; start in the past). -/
theorem book_validation_failures_witness :
    BookAppointmentUseCase.execute exEnvMorning 0 "id1"
        ⟨"", "Dr. A", "Own", "Pet", none, some 378000000, some 379800000,
          none, none⟩ =
      (⟨false, none, some "Missing required appointment data", none⟩, [])
    ∧ BookAppointmentUseCase.execute exEnvMorning 0 "id1"
        ⟨"doc1", "Dr. A", "Own", "Pet", none, some 378000000,
          some 378000000, none, none⟩ =
      (⟨false, none, some "End time must be after start time", none⟩, [])
    ∧ BookAppointmentUseCase.execute exEnvMorning 500000000 "id1"
        ⟨"doc1", "Dr. A", "Own", "Pet", none, some 378000000,
          some 379800000, none, none⟩ =
      (⟨false, none, some "Cannot book appointments in the past", none⟩,
        []) :=
  ⟨(book_validation_failures exEnvMorning 0 "id1" _).1 (Or.inl rfl),
    (book_validation_failures exEnvMorning 0 "id1" _).2.1 378000000
      378000000 rfl rfl (by decide) (by decide),
    (book_validation_failures exEnvMorning 500000000 "id1" _).2.2 378000000
      379800000 rfl rfl (by decide) (by decide) (by decide)⟩

/-- C10.  Booking against an unknown provider id returns a failure result
(the internally thrown not-found error is caught) and never modifies the
stored appointment collection. -/
theorem book_unknown_provider_safe (env : Env) (now : Nat)
    (freshId : String) (d : AppointmentCreate)
    (h : getDoctorById env.doctors d.doctorId = none) :
    (BookAppointmentUseCase.execute env now freshId d).1.success = false
    ∧ (BookAppointmentUseCase.execute env now freshId d).2 =
        env.appointments := by
  have hval : ∀ s e, BookAppointmentUseCase.validateSlotAvailability env now
      d.doctorId s e = false := by
    intro s e
    rw [BookAppointmentUseCase.validateSlotAvailability,
      GetAvailableSlotsUseCase.execute, h]
  have hnext : GetAvailableSlotsUseCase.getNextAvailableSlots env now
      d.doctorId 3 30 =
      .error ("Doctor with ID " ++ d.doctorId ++ " not found") := by
    rw [GetAvailableSlotsUseCase.getNextAvailableSlots,
      GetAvailableSlotsUseCase.execute, h]
  cases hs : d.startDateISO with
  | none => cases he : d.endDateISO <;>
      simp [BookAppointmentUseCase.execute, hs, he]
  | some s =>
    cases he : d.endDateISO with
    | none => simp [BookAppointmentUseCase.execute, hs, he]
    | some e =>
      by_cases hdoc : d.doctorId = ""
      · simp [BookAppointmentUseCase.execute, hs, he, hdoc]
      · by_cases hle : e ≤ s
        · simp [BookAppointmentUseCase.execute, hs, he, hdoc, hle]
        · by_cases hpast : s < now
          · simp [BookAppointmentUseCase.execute, hs, he, hdoc, hle, hpast]
          · simp [BookAppointmentUseCase.execute, hs, he, hdoc, hle, hpast,
              hval, hnext]

/-- Witness for C10: booking with a provider id matching no stored doctor
fails and leaves the store unchanged. -/
theorem book_unknown_provider_safe_witness :
    getDoctorById exEnvMorning.doctors "ghost" = none
    ∧ ((BookAppointmentUseCase.execute exEnvMorning 0 "id1"
          ⟨"ghost", "Dr. G", "Own", "Pet", none, some 378000000,
            some 379800000, none, none⟩).1.success = false
        ∧ (BookAppointmentUseCase.execute exEnvMorning 0 "id1"
            ⟨"ghost", "Dr. G", "Own", "Pet", none, some 378000000,
              some 379800000, none, none⟩).2 = exEnvMorning.appointments) :=
  ⟨rfl,
    book_unknown_provider_safe exEnvMorning 0 "id1" _ rfl⟩

/-- C2.  Past the basic validations, booking succeeds exactly when the
candidate list recomputed for the requested start's calendar day holds a
slot whose start and end equal the request exactly; otherwise it fails as
"Slot already booked" and returns the first (at most) 3 of the provider's
available slots over the 30-day horizon from now, ascending by start. -/
theorem book_exact_match_and_alternatives (env : Env) (now : Nat)
    (freshId : String) (d : AppointmentCreate) (s e : Nat)
    (daySlots futureSlots : List TimeSlot)
    (hs : d.startDateISO = some s) (he : d.endDateISO = some e)
    (hdoc : d.doctorId ≠ "") (hlt : s < e) (hnp : now ≤ s)
    (hday : GetAvailableSlotsUseCase.execute env now d.doctorId (dayFloor s)
      (dayFloor s + (msPerDay - 1)) 30 = .ok daySlots)
    (hfut : GetAvailableSlotsUseCase.execute env now d.doctorId now
      (now + 30 * msPerDay) 30 = .ok futureSlots) :
    ((BookAppointmentUseCase.execute env now freshId d).1.success = true ↔
        ∃ slot ∈ daySlots, slot.startISO = s ∧ slot.endISO = e)
    ∧ ((¬ ∃ slot ∈ daySlots, slot.startISO = s ∧ slot.endISO = e) →
        BookAppointmentUseCase.execute env now freshId d =
            (⟨false, none, some "Slot already booked",
                some ((futureSlots.take 3).map fun slot =>
                  (slot.startISO, slot.endISO))⟩,
              env.appointments)
          ∧ ((futureSlots.take 3).map fun slot =>
              (slot.startISO, slot.endISO)).length ≤ 3
          ∧ List.Pairwise (fun p q : Nat × Nat => p.1 ≤ q.1)
              ((futureSlots.take 3).map fun slot =>
                (slot.startISO, slot.endISO))) := by
  have hviff := validateSlotAvailability_iff env now d.doctorId s e daySlots
    hday
  have hnle : ¬ e ≤ s := by omega
  have hnpast : ¬ s < now := by omega
  have hnext : GetAvailableSlotsUseCase.getNextAvailableSlots env now
      d.doctorId 3 30 = .ok (futureSlots.take 3) := by
    rw [GetAvailableSlotsUseCase.getNextAvailableSlots, hfut]
  constructor
  · by_cases hv : BookAppointmentUseCase.validateSlotAvailability env now
        d.doctorId s e = true
    · have hsucc : (BookAppointmentUseCase.execute env now freshId
          d).1.success = true := by
        simp [BookAppointmentUseCase.execute, hs, he, hdoc, hnle, hnpast, hv]
      exact ⟨fun _ => hviff.mp hv, fun _ => hsucc⟩
    · have hvf : BookAppointmentUseCase.validateSlotAvailability env now
          d.doctorId s e = false := Bool.eq_false_iff.mpr hv
      have hfail : (BookAppointmentUseCase.execute env now freshId
          d).1.success = false := by
        simp [BookAppointmentUseCase.execute, hs, he, hdoc, hnle, hnpast,
          hvf, hnext]
      exact ⟨fun hsucc => absurd (hfail ▸ hsucc) (by simp),
        fun hex => absurd (hviff.mpr hex) hv⟩
  · intro hnex
    have hvf : BookAppointmentUseCase.validateSlotAvailability env now
        d.doctorId s e = false :=
      Bool.eq_false_iff.mpr fun h => hnex (hviff.mp h)
    refine ⟨?_, ?_, ?_⟩
    · simp [BookAppointmentUseCase.execute, hs, he, hdoc, hnle, hnpast,
        hvf, hnext]
    · rw [List.length_map, List.length_take]
      exact min_le_left 3 futureSlots.length
    · have hsorted : List.Sorted slotLe futureSlots :=
        execute_ok_sorted env now d.doctorId now (now + 30 * msPerDay) 30
          futureSlots hfut
      have htake : List.Pairwise slotLe (futureSlots.take 3) :=
        List.Pairwise.sublist (List.take_sublist 3 futureSlots) hsorted
      exact htake.map _ fun a b hab => hab

/-- Witness for C2: a doctor whose only block (09:00-09:29) is too short for
a 30-minute slot, so both the day list and the 30-day list are empty; a
well-formed request cannot match exactly and fails as slot-unavailable. -/
theorem book_exact_match_and_alternatives_witness :
    ((⟨"doc2", "Dr. C", "Own", "Pet", none, some 378000000, some 379800000,
        none, none⟩ : AppointmentCreate).startDateISO = some 378000000)
    ∧ (((BookAppointmentUseCase.execute ⟨[⟨"doc2", "Dr. C", ["general"],
          [⟨"r3", 1, (9, 0), (9, 29), none⟩], "clinic"⟩], []⟩ 0 "id1"
          ⟨"doc2", "Dr. C", "Own", "Pet", none, some 378000000,
            some 379800000, none, none⟩).1.success = true ↔
        ∃ slot ∈ ([] : List TimeSlot), slot.startISO = 378000000 ∧
          slot.endISO = 379800000)
      ∧ ((¬ ∃ slot ∈ ([] : List TimeSlot), slot.startISO = 378000000 ∧
            slot.endISO = 379800000) →
          BookAppointmentUseCase.execute ⟨[⟨"doc2", "Dr. C", ["general"],
              [⟨"r3", 1, (9, 0), (9, 29), none⟩], "clinic"⟩], []⟩ 0 "id1"
              ⟨"doc2", "Dr. C", "Own", "Pet", none, some 378000000,
                some 379800000, none, none⟩ =
              (⟨false, none, some "Slot already booked",
                  some ((([] : List TimeSlot).take 3).map fun slot =>
                    (slot.startISO, slot.endISO))⟩,
                [])
            ∧ ((([] : List TimeSlot).take 3).map fun slot =>
                (slot.startISO, slot.endISO)).length ≤ 3
            ∧ List.Pairwise (fun p q : Nat × Nat => p.1 ≤ q.1)
                ((([] : List TimeSlot).take 3).map fun slot =>
                  (slot.startISO, slot.endISO)))) :=
  ⟨rfl,
    book_exact_match_and_alternatives ⟨[⟨"doc2", "Dr. C", ["general"],
        [⟨"r3", 1, (9, 0), (9, 29), none⟩], "clinic"⟩], []⟩ 0 "id1"
      ⟨"doc2", "Dr. C", "Own", "Pet", none, some 378000000, some 379800000,
        none, none⟩ 378000000 379800000 [] [] rfl rfl (by decide)
      (by decide) (by decide) rfl rfl⟩

/-- An appointment on the epoch-calendar Monday day 4 at 09:00-09:30. -/
def exApptPast : Appointment :=
  ⟨"a1", "doc1", "Dr. A", "Own", "Pet", none, 378000000, 379800000,
    .scheduled, none, none, none, none⟩

def exEnvResched : Env := ⟨[exDoctorMorning], [exApptPast]⟩

/-- Counterexample for C7: rescheduling to a start instant in the past
(Monday day 4, 09:00, with now at day 18) does not fail with the booking
InThePast outcome; the code runs no basic validation on reschedule and the
request falls through to the exact-match re-check, failing as
slot-unavailable instead. -/
theorem reschedule_past_counterexample :
    378000000 < 18 * msPerDay
    ∧ (BookAppointmentUseCase.reschedule exEnvResched (18 * msPerDay) "a1"
        378000000 379800000).1.error = some "New slot already booked"
    ∧ (BookAppointmentUseCase.reschedule exEnvResched (18 * msPerDay) "a1"
        378000000 379800000).1.error ≠
        some "Cannot book appointments in the past" := by
  decide

/-- C7 (amended).  Reschedule performs no separate basic validation: it
fails NotFound for a missing appointment; otherwise it applies only the
exact-match re-check against the new requested times scoped to the existing
appointment's provider, failing as "New slot already booked" with up to 3
ascending alternatives; a new start in the past can therefore only fail as
slot-unavailable, never as InThePast; on success only the appointment's
start/end instants and update instant are overwritten in place (identifier,
owner and subject fields and status unchanged). -/
theorem reschedule_spec (env : Env) (now : Nat) (appointmentId : String)
    (newStartISO newEndISO : Nat) :
    (getAppointmentById env.appointments appointmentId = none →
        BookAppointmentUseCase.reschedule env now appointmentId newStartISO
            newEndISO =
          (⟨false, none, some "Appointment not found", none⟩,
            env.appointments))
    ∧ (∀ a, getAppointmentById env.appointments appointmentId = some a →
        BookAppointmentUseCase.validateSlotAvailability env now a.doctorId
          newStartISO newEndISO = true →
        ∃ i, env.appointments.findIdx? (fun x => x.id == appointmentId) =
            some i ∧
          BookAppointmentUseCase.reschedule env now appointmentId newStartISO
              newEndISO =
            (⟨true, some { a with startDateISO := newStartISO, endDateISO := newEndISO, updatedAt := some now }, none, none⟩,
              env.appointments.set i { a with startDateISO := newStartISO, endDateISO := newEndISO, updatedAt := some now }))
    ∧ (∀ a, getAppointmentById env.appointments appointmentId = some a →
        BookAppointmentUseCase.validateSlotAvailability env now a.doctorId
          newStartISO newEndISO = false →
        ∀ futureSlots, GetAvailableSlotsUseCase.execute env now a.doctorId
          now (now + 30 * msPerDay) 30 = .ok futureSlots →
        BookAppointmentUseCase.reschedule env now appointmentId newStartISO
            newEndISO =
          (⟨false, none, some "New slot already booked",
              some ((futureSlots.take 3).map fun slot =>
                (slot.startISO, slot.endISO))⟩,
            env.appointments))
    ∧ (∀ a doctor,
        getAppointmentById env.appointments appointmentId = some a →
        getDoctorById env.doctors a.doctorId = some doctor →
        newStartISO < now →
        (BookAppointmentUseCase.reschedule env now appointmentId newStartISO
          newEndISO).1.error = some "New slot already booked") := by
  refine ⟨?_, ?_, ?_, ?_⟩
  · intro h
    rw [BookAppointmentUseCase.reschedule, h]
  · intro a ha hv
    have hfind : env.appointments.find? (fun x => x.id == appointmentId) =
        some a := by
      rw [getAppointmentById] at ha
      exact ha
    have haid : a.id = appointmentId := by
      have := List.find?_some hfind
      simpa using this
    obtain ⟨i, hi⟩ := findIdx?_isSome_of_find? _ _ _ hfind
    have hpred : (fun x : Appointment =>
        x.id == ({ a with startDateISO := newStartISO, endDateISO := newEndISO, updatedAt := some now } : Appointment).id) =
        fun x : Appointment => x.id == appointmentId := by
      funext x
      rw [show ({ a with startDateISO := newStartISO, endDateISO := newEndISO, updatedAt := some now } : Appointment).id = a.id from rfl, haid]
    have hupd : updateAppointment env.appointments
        { a with startDateISO := newStartISO, endDateISO := newEndISO, updatedAt := some now } =
        .ok (env.appointments.set i { a with startDateISO := newStartISO, endDateISO := newEndISO, updatedAt := some now }) := by
      rw [updateAppointment, hpred, hi]
    exact ⟨i, hi, by
      simp [BookAppointmentUseCase.reschedule, ha, hv, hupd]⟩
  · intro a ha hv futureSlots hfut
    have hnext : GetAvailableSlotsUseCase.getNextAvailableSlots env now
        a.doctorId 3 30 = .ok (futureSlots.take 3) := by
      rw [GetAvailableSlotsUseCase.getNextAvailableSlots, hfut]
    simp [BookAppointmentUseCase.reschedule, ha, hv, hnext]
  · intro a doctor ha hdoc hpast
    have hvf : BookAppointmentUseCase.validateSlotAvailability env now
        a.doctorId newStartISO newEndISO = false :=
      Bool.eq_false_iff.mpr fun h =>
        absurd (validateSlotAvailability_future env now a.doctorId
          newStartISO newEndISO h) (by omega)
    have hok := execute_isOk_of_doctor env now a.doctorId now
      (now + 30 * msPerDay) 30 doctor hdoc
    have hnext : GetAvailableSlotsUseCase.getNextAvailableSlots env now
        a.doctorId 3 30 = .ok ((List.insertionSort slotLe
          (filterBookedSlots
            (generateAllPossibleSlots doctor now (now + 30 * msPerDay) 30
              now)
            (getAppointmentsByDoctorAndDateRange env.appointments a.doctorId
              now (now + 30 * msPerDay)))).take 3) := by
      rw [GetAvailableSlotsUseCase.getNextAvailableSlots, hok]
    simp [BookAppointmentUseCase.reschedule, ha, hvf, hnext]

/-- Witness for C7's amended theorem: the NotFound branch, and the
slot-unavailable outcome for a past new start. -/
theorem reschedule_spec_witness :
    BookAppointmentUseCase.reschedule exEnvResched 0 "nope" 378000000
        379800000 =
      (⟨false, none, some "Appointment not found", none⟩,
        exEnvResched.appointments)
    ∧ (BookAppointmentUseCase.reschedule exEnvResched (18 * msPerDay) "a1"
        378000000 379800000).1.error = some "New slot already booked" :=
  ⟨(reschedule_spec exEnvResched 0 "nope" 378000000 379800000).1 rfl,
    (reschedule_spec exEnvResched (18 * msPerDay) "a1" 378000000
      379800000).2.2.2 exApptPast exDoctorMorning rfl rfl (by decide)⟩

/-- C8.  The cancellation guards run in order (NotFound, AlreadyCancelled,
InThePast), each failure leaving the store untouched; otherwise the status
becomes cancelled, a given reason is appended to the prior notes with a
newline and the template prefix (then trimmed), the update instant is set
and the change is written in place; a second cancellation of the same
appointment then fails with AlreadyCancelled. -/
theorem cancel_spec (appointments : List Appointment) (now : Nat)
    (appointmentId : String) (reason : Option String) :
    (getAppointmentById appointments appointmentId = none →
        CancelAppointmentUseCase.execute appointments now appointmentId
            reason =
          (⟨false, none, some "Appointment not found"⟩, appointments))
    ∧ (∀ a, getAppointmentById appointments appointmentId = some a →
        a.status = .cancelled →
        CancelAppointmentUseCase.execute appointments now appointmentId
            reason =
          (⟨false, none, some "Appointment is already cancelled"⟩,
            appointments))
    ∧ (∀ a, getAppointmentById appointments appointmentId = some a →
        a.status ≠ .cancelled → a.startDateISO < now →
        CancelAppointmentUseCase.execute appointments now appointmentId
            reason =
          (⟨false, none, some "Cannot cancel past appointments"⟩,
            appointments))
    ∧ (∀ a, getAppointmentById appointments appointmentId = some a →
        a.status ≠ .cancelled → now ≤ a.startDateISO →
        ∀ c, c = { a with status := AppointmentStatus.cancelled, notes := (match reason with | some r => if r = "" then a.notes else some (jsTrim ((a.notes.getD "") ++ "\n" ++ "Cancellation reason: " ++ r)) | none => a.notes), updatedAt := some now } →
        ∃ i, appointments.findIdx? (fun x => x.id == appointmentId) =
            some i ∧
          CancelAppointmentUseCase.execute appointments now appointmentId
              reason =
            (⟨true, some c, none⟩, appointments.set i c)
          ∧ ∀ now2 reason2,
              CancelAppointmentUseCase.execute (appointments.set i c) now2
                  appointmentId reason2 =
                (⟨false, none, some "Appointment is already cancelled"⟩,
                  appointments.set i c)) := by
  refine ⟨?_, ?_, ?_, ?_⟩
  · intro h
    rw [CancelAppointmentUseCase.execute, h]
  · intro a ha hst
    simp [CancelAppointmentUseCase.execute, ha, hst]
  · intro a ha hst hpast
    simp [CancelAppointmentUseCase.execute, ha, hst, hpast]
  · intro a ha hst hnp c hc
    have hfind : appointments.find? (fun x => x.id == appointmentId) =
        some a := by
      rw [getAppointmentById] at ha
      exact ha
    have haid : a.id = appointmentId := by
      have := List.find?_some hfind
      simpa using this
    obtain ⟨i, hi⟩ := findIdx?_isSome_of_find? _ _ _ hfind
    have hcid : c.id = appointmentId := by
      subst hc
      exact haid
    have hpred : (fun x : Appointment => x.id == c.id) =
        fun x : Appointment => x.id == appointmentId := by
      funext x
      rw [hcid]
    have hupd : updateAppointment appointments c =
        .ok (appointments.set i c) := by
      rw [updateAppointment, hpred, hi]
    refine ⟨i, hi, ?_, ?_⟩
    · subst hc
      simp [CancelAppointmentUseCase.execute, ha, hst, hupd, hnp,
        (by omega : ¬ a.startDateISO < now)]
    · intro now2 reason2
      have hfind2 : (appointments.set i c).find?
          (fun x => x.id == appointmentId) = some c :=
        find?_set _ c (by rw [hcid]; exact beq_self_eq_true appointmentId)
          appointments i hi
      have hst2 : c.status = AppointmentStatus.cancelled := by
        subst hc
        rfl
      simp [CancelAppointmentUseCase.execute, getAppointmentById, hfind2,
        hst2]

/-- An already-cancelled appointment for the second-guard witness. -/
def exApptCancelled : Appointment :=
  ⟨"a3", "doc1", "Dr. A", "Own", "Pet", none, 378000000, 379800000,
    .cancelled, none, none, none, none⟩

/-- A future scheduled appointment with prior notes for the success-path
check. -/
def exApptFuture : Appointment :=
  ⟨"a2", "doc1", "Dr. A", "Own", "Pet", none, 378000000, 379800000,
    .scheduled, none, some "prior note", none, none⟩

/-- Witness for C8: the InThePast guard at day 18 against the day-4
appointment, the AlreadyCancelled guard, and the concrete success path
appending the reason to the prior notes. -/
theorem cancel_spec_witness :
    CancelAppointmentUseCase.execute [exApptPast] (18 * msPerDay) "a1"
        (some "r") =
      (⟨false, none, some "Cannot cancel past appointments"⟩, [exApptPast])
    ∧ CancelAppointmentUseCase.execute [exApptCancelled] 0 "a3" none =
      (⟨false, none, some "Appointment is already cancelled"⟩,
        [exApptCancelled])
    ∧ CancelAppointmentUseCase.execute [exApptFuture] 0 "a2"
        (some "no show") =
      (⟨true, some ⟨"a2", "doc1", "Dr. A", "Own", "Pet", none, 378000000,
          379800000, .cancelled, none,
          some "prior note\nCancellation reason: no show", none, some 0⟩,
        none⟩,
        [⟨"a2", "doc1", "Dr. A", "Own", "Pet", none, 378000000, 379800000,
          .cancelled, none,
          some "prior note\nCancellation reason: no show", none,
          some 0⟩]) :=
  ⟨(cancel_spec [exApptPast] (18 * msPerDay) "a1" (some "r")).2.2.1
      exApptPast rfl (by decide) (by decide),
    (cancel_spec [exApptCancelled] 0 "a3" none).2.1 exApptCancelled rfl
      (by decide),
    by decide⟩

end PetMent
